import Mathlib

/-!
# Reto4ServidorDeArchivos: file server (`servidor.c`) and client (`cliente.c`)

A shallow embedding of the protocol code of the two C programs.

* C `char` data is a list of bytes, each byte a natural number below 256.
  A C string is given by its content, the bytes before the terminating NUL.
* Every call that touches the outside world (`send`, `fopen`, `fclose`,
  `opendir`, `closedir`) is recorded as an `Event`, in program order.
* The file system and the directory are read through a `World`.
* Where the C code has undefined behaviour (a write or a read past the end
  of a fixed buffer) the embedding returns `none`.
-/

namespace Reto4

/-! ## Bytes and string literals -/

/-- UTF-8 encoding of one character, as the compiler stores it in a string literal. -/
def utf8Char (c : Char) : List Nat :=
  let n := c.toNat
  if n < 128 then [n]
  else if n < 2048 then [192 + n / 64, 128 + n % 64]
  else if n < 65536 then [224 + n / 4096, 128 + n / 64 % 64, 128 + n % 64]
  else [240 + n / 262144, 128 + n / 4096 % 64, 128 + n / 64 % 64, 128 + n % 64]

/-- Bytes of a list of characters. -/
def utf8Chars : List Char → List Nat
  | [] => []
  | c :: cs => utf8Char c ++ utf8Chars cs

/-- Content of a C string literal. -/
def bytes (s : String) : List Nat := utf8Chars s.toList

/-- `#define BUFFER_SIZE 4096` (both programs). -/
def BUFFER_SIZE : Nat := 4096

/-- `#define FILES_DIR "./archivos"`. -/
def FILES_DIR : List Nat := bytes "./archivos"

/-! ## libc string functions, on string contents -/

/-- `strstr(hay, needle) != NULL`: `needle` occurs in `hay` as a contiguous run. -/
def strstr : List Nat → List Nat → Bool
  | [], needle => needle.isPrefixOf []
  | h :: t, needle => needle.isPrefixOf (h :: t) || strstr t needle

/-- `strchr(s, c) != NULL`: the byte `c` occurs in `s` (the terminator counts for `c = 0`). -/
def strchr (s : List Nat) (c : Nat) : Bool :=
  c == 0 || s.contains c

/-- `strcmp(a, b) == 0`. -/
def strcmp_eq (a b : List Nat) : Bool := a == b

/-- `strncmp(a, b, n) == 0`: the strings agree on their first `n` bytes
(a string shorter than `n` has to agree up to and including its end). -/
def strncmp_eq (a b : List Nat) (n : Nat) : Bool := a.take n == b.take n

/-- String left in a buffer of `size` bytes by `snprintf`: the formatted text
cut to `size - 1` bytes. -/
def snprintf (size : Nat) (formatted : List Nat) : List Nat :=
  formatted.take (size - 1)

/-- Decimal digits of a natural number, as ASCII bytes. -/
def decimal (n : Nat) : List Nat := (Nat.toDigits 10 n).map Char.toNat

/-- Text printed by `%ld`. -/
def fmt_ld (n : Int) : List Nat :=
  if n < 0 then 45 :: decimal n.natAbs else decimal n.toNat

/-! ## The outside world -/

/-- Result of `stat`: `S_ISREG(st_mode)` and `st_size`. -/
structure Stat where
  isReg : Bool
  st_size : Int
deriving DecidableEq, Repr

/-- What the server sees of the file system.
`fopen path` is `none` when the open fails, else the bytes that successive
`fread` calls deliver before `fread` returns 0 (end of file or read error).
`opendir` is `none` when `opendir(FILES_DIR)` fails, else the `d_name` of the
entries that `readdir` returns, in order.  `stat path` is `none` when `stat`
fails. -/
structure World where
  fopen : List Nat → Option (List Nat)
  opendir : Option (List (List Nat))
  stat : List Nat → Option Stat

/-- Calls to the outside world, in program order. -/
inductive Event where
  | send (data : List Nat)
  | fopen (path : List Nat)
  | fclose
  | opendir
  | closedir
deriving DecidableEq, Repr

/-- All bytes passed to `send`, in order. -/
def sentBytes : List Event → List Nat
  | [] => []
  | Event.send d :: es => d ++ sentBytes es
  | _ :: es => sentBytes es

/-- Does the trace try to open a file. -/
def opensFile : List Event → Bool
  | [] => false
  | Event.fopen _ :: _ => true
  | _ :: es => opensFile es

/-! ## `servidor.c`: `enviar_archivo` -/

/-- The loop `while ((bytes_read = fread(buffer, 1, n, file)) > 0) send(...)`:
the list of chunks sent.  `fuel` bounds the number of iterations. -/
def freadLoop (n : Nat) : Nat → List Nat → Option (List (List Nat))
  | 0, _ => none
  | fuel + 1, file =>
    let chunk := file.take n
    if 0 < chunk.length then
      (freadLoop n fuel (file.drop n)).map (fun cs => chunk :: cs)
    else some []

/-- The `fread`/`send` loop run to completion. -/
def streamChunks (n : Nat) (file : List Nat) : List (List Nat) :=
  (freadLoop n (file.length + 1) file).getD []

/-- The test `strstr(filename, "..") != NULL || strchr(filename, '/') != NULL`. -/
def guardRejects (filename : List Nat) : Bool :=
  strstr filename (bytes "..") || strchr filename 47

def invalidNameMsg : List Nat := bytes "Error: Nombre de archivo inválido\n"

/-- Text formatted into `error_msg` when the file cannot be opened. -/
def openErrorText (filename : List Nat) : List Nat :=
  bytes "Error: No se puede abrir el archivo '" ++ filename ++ bytes "'\n"

/-- Text formatted into `header`. -/
def headerText (filename : List Nat) : List Nat :=
  bytes "=== CONTENIDO DE " ++ filename ++ bytes " ===\n"

def footer : List Nat := bytes "\n=== FIN DEL ARCHIVO ===\n"

/-- `enviar_archivo(client_socket, filename)`. -/
def enviar_archivo (w : World) (filename : List Nat) : List Event :=
  if guardRejects filename then
    [Event.send invalidNameMsg]
  else
    let filepath := snprintf 512 (FILES_DIR ++ bytes "/" ++ filename)
    match w.fopen filepath with
    | none =>
      [Event.fopen filepath, Event.send (snprintf 256 (openErrorText filename))]
    | some content =>
      [Event.fopen filepath, Event.send (snprintf 256 (headerText filename))]
        ++ (streamChunks (BUFFER_SIZE - 1) content).map Event.send
        ++ [Event.send footer, Event.fclose]

/-- A world with no files and an empty directory. -/
def emptyWorld : World where
  fopen := fun _ => none
  opendir := some []
  stat := fun _ => none

/-! ## `servidor.c`: `listar_archivos` -/

/-- `strcat(dst, src)` where `dst` is a buffer of `size` bytes: `none` when the
joined string and its terminator do not fit (the write runs past the buffer). -/
def strcat (size : Nat) (dst src : List Nat) : Option (List Nat) :=
  if dst.length + src.length + 1 ≤ size then some (dst ++ src) else none

def listaHeader : List Nat := bytes "=== LISTA DE ARCHIVOS ===\n"

def listaFooter : List Nat := bytes "========================\n"

def dirErrorMsg : List Nat := bytes "Error: No se puede abrir el directorio\n"

/-- Text formatted into `file_info` by `"- %s (%ld bytes)\n"`. -/
def fileInfoText (d_name : List Nat) (st_size : Int) : List Nat :=
  bytes "- " ++ d_name ++ bytes " (" ++ fmt_ld st_size ++ bytes " bytes)\n"

/-- The `readdir` loop: the content of `lista` after the given entries. -/
def listarLoop (w : World) : List (List Nat) → List Nat → Option (List Nat)
  | [], lista => some lista
  | d_name :: rest, lista =>
    if strcmp_eq d_name (bytes ".") || strcmp_eq d_name (bytes "..") then
      listarLoop w rest lista
    else
      let path := snprintf 512 (FILES_DIR ++ bytes "/" ++ d_name)
      match w.stat path with
      | some file_stat =>
        if file_stat.isReg then
          let file_info := snprintf 256 (fileInfoText d_name file_stat.st_size)
          match strcat BUFFER_SIZE lista file_info with
          | some lista1 => listarLoop w rest lista1
          | none => none
        else listarLoop w rest lista
      | none => listarLoop w rest lista

/-- `listar_archivos(client_socket)`. -/
def listar_archivos (w : World) : Option (List Event) :=
  match w.opendir with
  | none => some [Event.opendir, Event.send dirErrorMsg]
  | some entries =>
    match listarLoop w entries listaHeader with
    | none => none
    | some lista =>
      match strcat BUFFER_SIZE lista listaFooter with
      | none => none
      | some lista1 => some [Event.opendir, Event.closedir, Event.send lista1]

/-! ## `servidor.c`: the per-connection loop of `main` -/

/-- Result of one `read` on a socket: `failed` when it returns a negative
value, else the bytes delivered (none at all when it returns 0). -/
inductive ReadResult where
  | failed
  | data (bs : List Nat)
deriving DecidableEq, Repr

/-- The test `valread <= 0` (server) and its negation `bytes_received > 0` (client). -/
def noData : ReadResult → Bool
  | ReadResult.failed => true
  | ReadResult.data bs => bs.length == 0

/-- State of a connection in the command loop. -/
inductive ConnState where
  | AWAIT_COMMAND
  | CLOSED
deriving DecidableEq, Repr

/-- String content up to the first newline or NUL: what is left of `s` after
`s[strcspn(s, "\n")] = 0`. -/
def cutAtNewline (s : List Nat) : List Nat :=
  s.takeWhile (fun b => b != 0 && b != 10)

/-- The command held by the zeroed `buffer[BUFFER_SIZE]` after a `read` that
delivered `data` and after `buffer[strcspn(buffer, "\n")] = 0`.  When the read
fills the buffer with bytes that are neither newline nor NUL, `strcspn` runs
past the buffer: `none`. -/
def commandLine (data : List Nat) : Option (List Nat) :=
  let line := cutAtNewline data
  if line.length < BUFFER_SIZE then some line else none

/-- The branch of the `if`/`else if` chain that a command takes. -/
inductive Action where
  | list
  | get (filename : List Nat)
  | exit
  | unknown
deriving DecidableEq, Repr

/-- The `if`/`else if` chain on `buffer`. -/
def dispatch (buffer : List Nat) : Action :=
  if strcmp_eq buffer (bytes "LIST") then Action.list
  else if strncmp_eq buffer (bytes "GET ") 4 then Action.get (buffer.drop 4)
  else if strcmp_eq buffer (bytes "EXIT") then Action.exit
  else Action.unknown

def welcome : List Nat :=
  bytes ("=== SERVIDOR DE ARCHIVOS ===\n" ++
         "Comandos disponibles:\n" ++
         "  LIST - Listar archivos\n" ++
         "  GET <nombre> - Obtener archivo\n" ++
         "  EXIT - Salir\n" ++
         "============================\n")

def bye : List Nat := bytes "Cerrando conexión...\n"

def unknownMsg : List Nat :=
  bytes "Comando no reconocido. Use LIST, GET <archivo> o EXIT\n"

/-- Body of each branch: the calls made and whether the loop goes on or breaks. -/
def runAction (w : World) : Action → Option (List Event × ConnState)
  | Action.list =>
    match listar_archivos w with
    | some evs => some (evs, ConnState.AWAIT_COMMAND)
    | none => none
  | Action.get filename => some (enviar_archivo w filename, ConnState.AWAIT_COMMAND)
  | Action.exit => some ([Event.send bye], ConnState.CLOSED)
  | Action.unknown => some ([Event.send unknownMsg], ConnState.AWAIT_COMMAND)

/-- One iteration of the command loop, given the result of its `read`. -/
def connStep (w : World) (r : ReadResult) : Option (List Event × ConnState) :=
  if noData r then some ([], ConnState.CLOSED)
  else
    match r with
    | ReadResult.failed => some ([], ConnState.CLOSED)
    | ReadResult.data bs =>
      match commandLine bs with
      | none => none
      | some buffer => runAction w (dispatch buffer)

/-- The command loop of one connection over the results of its successive
`read` calls.  The loop is left at the first step that reaches `CLOSED`; when
the reads run out the connection is still waiting for a command. -/
def commandLoop (w : World) : List ReadResult → Option (List Event × ConnState)
  | [] => some ([], ConnState.AWAIT_COMMAND)
  | r :: rs =>
    match connStep w r with
    | none => none
    | some (evs, ConnState.CLOSED) => some (evs, ConnState.CLOSED)
    | some (evs, ConnState.AWAIT_COMMAND) =>
      match commandLoop w rs with
      | none => none
      | some (evs1, s) => some (evs ++ evs1, s)

/-- One accepted connection: the welcome banner, then the command loop. -/
def serveConnection (w : World) (reads : List ReadResult) :
    Option (List Event × ConnState) :=
  match commandLoop w reads with
  | none => none
  | some (evs, s) => some (Event.send welcome :: evs, s)

/-! ## `cliente.c` -/

/-- Bytes stored by `fgets` when it may store up to `n` of them: it stops after
a newline, at the end of the input, or when `n` bytes are stored. -/
def fgetsBytes : Nat → List Nat → List Nat
  | 0, _ => []
  | _ + 1, [] => []
  | n + 1, b :: bs => if b == 10 then [b] else b :: fgetsBytes n bs

/-- `fgets(buf, size, stdin)`: `none` at end of input (the buffer is left as it
was), else the bytes stored and the input that remains. -/
def fgets (size : Nat) (stdin : List Nat) : Option (List Nat × List Nat) :=
  if stdin.isEmpty then none
  else
    let stored := fgetsBytes (size - 1) stdin
    some (stored, stdin.drop stored.length)

/-- The string in `comando` after `fgets` and `comando[strcspn(comando, "\n")] = 0`,
with the input that remains.  `comando` is the string held before the call. -/
def readCommand (comando stdin : List Nat) : List Nat × List Nat :=
  match fgets 256 stdin with
  | none => (cutAtNewline comando, stdin)
  | some (stored, rest) => (cutAtNewline stored, rest)

/-- The bytes passed to `send(sock, comando, strlen(comando), 0)`; nothing is
sent when `strlen(comando) == 0`. -/
def sendCommand (comando : List Nat) : List Event :=
  if comando.length == 0 then [] else [Event.send comando]

/-- What the client sends for the next line of its standard input. -/
def clientSends (stdin : List Nat) : List Event :=
  sendCommand (readCommand [] stdin).1

/-- The end-of-frame text the client looks for. -/
def sentinel : List Nat := bytes "=== FIN DEL ARCHIVO ==="

def errorMark : List Nat := bytes "Error:"

/-- The string seen in `buffer` after `buffer[bytes_received] = 0`: the bytes
received up to the first NUL among them. -/
def cstr (received : List Nat) : List Nat :=
  received.takeWhile (fun b => b != 0)

/-- The stop test `strstr(buffer, "=== FIN DEL ARCHIVO ===") || strstr(buffer, "Error:")`. -/
def stopTest (buffer : List Nat) : Bool :=
  strstr buffer sentinel || strstr buffer errorMark

/-- How the receive loop of a `GET` ends. -/
inductive LoopEnd where
  /-- The stop test held and the loop was left by `break`. -/
  | found
  /-- A `read` returned 0 or a negative value. -/
  | readEnd
  /-- The loop calls `read` again and the model has no further data for it. -/
  | pending
deriving DecidableEq, Repr

/-- Outcome of the receive loop of a `GET`. -/
structure GetResult where
  /-- Bytes printed by `printf("%s", buffer)`. -/
  displayed : List Nat
  /-- Bytes written by `fprintf(file, "%s", buffer)`. -/
  written : List Nat
  /-- Number of `read` calls that delivered data. -/
  reads : Nat
  ending : LoopEnd
deriving DecidableEq, Repr

/-- The receive loop of a `GET` over the results of its successive `read`
calls; `saving` is `file != NULL`. -/
def getLoop (saving : Bool) : List ReadResult → GetResult
  | [] => ⟨[], [], 0, LoopEnd.pending⟩
  | ReadResult.failed :: _ => ⟨[], [], 0, LoopEnd.readEnd⟩
  | ReadResult.data bs :: rest =>
    if bs.length == 0 then ⟨[], [], 0, LoopEnd.readEnd⟩
    else
      let buffer := cstr bs
      let out := if saving then buffer else []
      if stopTest buffer then ⟨buffer, out, 1, LoopEnd.found⟩
      else
        let r := getLoop saving rest
        ⟨buffer ++ r.displayed, out ++ r.written, r.reads + 1, r.ending⟩

/-- The response to a non-`GET` command: one `read`, printed if it delivered data. -/
def singleRead : ReadResult → List Nat
  | ReadResult.failed => []
  | ReadResult.data bs => if bs.length == 0 then [] else cstr bs

/-! ## Worlds and inputs used in the examples -/

/-- A world whose only file is `a.txt`, with content `abc`. -/
def worldA : World where
  fopen := fun p => if p = bytes "./archivos/a.txt" then some (bytes "abc") else none
  opendir := some [bytes ".", bytes "..", bytes "a.txt"]
  stat := fun p =>
    if p = bytes "./archivos/a.txt" then some ⟨true, 3⟩
    else if p = bytes "./archivos/." ∨ p = bytes "./archivos/.." then some ⟨false, 4096⟩
    else none

/-- A world in which every path opens a file with content `abc`. -/
def worldAll : World where
  fopen := fun _ => some (bytes "abc")
  opendir := some []
  stat := fun _ => some ⟨true, 3⟩

/-- A world without files in which `fopen("./archivos/", "r")` succeeds, as it
does on a directory, and `fread` then delivers nothing. -/
def worldDir : World where
  fopen := fun p => if p = bytes "./archivos/" then some [] else none
  opendir := some [bytes ".", bytes ".."]
  stat := fun _ => none

/-- A world in which every path opens a file with content `a`, NUL, `b`. -/
def worldBin : World where
  fopen := fun _ => some [97, 0, 98]
  opendir := none
  stat := fun _ => none

/-- A name of `n` letters `a`. -/
def longName (n : Nat) : List Nat := List.replicate n 97

/-- A world whose directory holds one regular, empty file with a name of 250 letters. -/
def worldLong : World where
  fopen := fun _ => none
  opendir := some [longName 250]
  stat := fun _ => some ⟨true, 0⟩

/-! ## Notions used to state the listing property -/

/-- Size of the entry `d_name` of the served root, when `stat` succeeds on
`./archivos/<d_name>` and reports a regular file. -/
def regularSize (w : World) (d_name : List Nat) : Option Int :=
  match w.stat (FILES_DIR ++ bytes "/" ++ d_name) with
  | some st => if st.isReg then some st.st_size else none
  | none => none

/-- One complete line `- <name> (<size> bytes)` for each entry that is a
regular file, in the order of the entries. -/
def entryLines (w : World) : List (List Nat) → List Nat
  | [] => []
  | d_name :: rest =>
    match regularSize w d_name with
    | some size => fileInfoText d_name size ++ entryLines w rest
    | none => entryLines w rest

/-! ## Lemmas: string functions -/

theorem strstr_iff (hay needle : List Nat) :
    strstr hay needle = true ↔ needle <:+: hay := by
  induction hay with
  | nil =>
    simp [strstr, List.isPrefixOf_iff_prefix]
  | cons h t ih =>
    simp only [strstr, Bool.or_eq_true, ih, List.isPrefixOf_iff_prefix]
    exact List.infix_cons_iff.symm

theorem strchr_iff (s : List Nat) (c : Nat) (hc : c ≠ 0) :
    strchr s c = true ↔ c ∈ s := by
  simp [strchr, hc]

theorem guardRejects_iff (name : List Nat) :
    guardRejects name = true ↔ (47 ∈ name ∨ bytes ".." <:+: name) := by
  unfold guardRejects
  rw [Bool.or_eq_true, strstr_iff, strchr_iff _ _ (by decide)]
  exact Or.comm

/-! ## C1: the filename guard of `enviar_archivo` -/

/-- C1 (as amended): `enviar_archivo` answers with the invalid-filename frame,
and nothing else, exactly when the name contains `/` or the substring `..`;
it tries to open a file exactly when the name has neither.  `../secret` and
`a/b` are rejected, `report.txt` is accepted. -/
theorem enviar_archivo_rejects_iff (w : World) (name : List Nat) :
    (enviar_archivo w name = [Event.send invalidNameMsg]
        ↔ (47 ∈ name ∨ bytes ".." <:+: name))
    ∧ (opensFile (enviar_archivo w name) = true
        ↔ ¬ (47 ∈ name ∨ bytes ".." <:+: name))
    ∧ enviar_archivo w (bytes "../secret") = [Event.send invalidNameMsg]
    ∧ enviar_archivo w (bytes "a/b") = [Event.send invalidNameMsg]
    ∧ opensFile (enviar_archivo w (bytes "report.txt")) = true := by
  have key : ∀ n : List Nat,
      (enviar_archivo w n = [Event.send invalidNameMsg] ↔ guardRejects n = true)
      ∧ (opensFile (enviar_archivo w n) = true ↔ ¬ guardRejects n = true) := by
    intro n
    unfold enviar_archivo
    by_cases hg : guardRejects n = true
    · simp [hg, opensFile]
    · simp only [hg, Bool.false_eq_true, if_false]
      cases w.fopen (snprintf 512 (FILES_DIR ++ bytes "/" ++ n)) <;>
        simp [opensFile]
  refine ⟨?_, ?_, ?_, ?_, ?_⟩
  · rw [(key name).1, guardRejects_iff]
  · rw [(key name).2, guardRejects_iff]
  · exact (key _).1.2 (by decide)
  · exact (key _).1.2 (by decide)
  · exact (key _).2.2 (by decide)

/-- C1, counterexample: the empty name is not rejected.  The guard lets it
through and the server goes on to `fopen("./archivos/")`: where that open
fails the client gets the cannot-open line, where it succeeds the client gets
a header and a footer. -/
theorem enviar_archivo_empty_name_not_rejected :
    ¬ (enviar_archivo emptyWorld [] = [Event.send invalidNameMsg]
        ↔ (([] : List Nat) = [] ∨ 47 ∈ ([] : List Nat) ∨ bytes ".." <:+: ([] : List Nat)))
    ∧ enviar_archivo emptyWorld []
        = [Event.fopen (bytes "./archivos/"),
           Event.send (bytes "Error: No se puede abrir el archivo ''\n")]
    ∧ enviar_archivo worldDir []
        = [Event.fopen (bytes "./archivos/"),
           Event.send (bytes "=== CONTENIDO DE  ===\n"),
           Event.send (bytes "\n=== FIN DEL ARCHIVO ===\n"), Event.fclose]
    ∧ connStep worldDir (ReadResult.data (bytes "GET \n"))
        = some (enviar_archivo worldDir [], ConnState.AWAIT_COMMAND) := by
  have h : enviar_archivo emptyWorld []
        = [Event.fopen (bytes "./archivos/"),
           Event.send (bytes "Error: No se puede abrir el archivo ''\n")] := by
    decide
  refine ⟨?_, h, by decide, by decide⟩
  rw [h]
  simp

/-! ## Lemmas: the streaming loop and traces -/

theorem freadLoop_flatten (n : Nat) (hn : 0 < n) :
    ∀ (fuel : Nat) (file : List Nat), file.length < fuel →
      ∃ cs, freadLoop n fuel file = some cs ∧ cs.flatten = file := by
  intro fuel
  induction fuel with
  | zero => intro file h; omega
  | succ k ih =>
    intro file h
    by_cases hc : 0 < (file.take n).length
    · have hdrop : (file.drop n).length < k := by
        rw [List.length_drop]
        rw [List.length_take] at hc
        omega
      obtain ⟨cs, hcs, hflat⟩ := ih (file.drop n) hdrop
      refine ⟨file.take n :: cs, ?_, ?_⟩
      · show (if 0 < (file.take n).length then
            (freadLoop n k (file.drop n)).map (fun cs => file.take n :: cs)
          else some []) = _
        rw [if_pos hc, hcs]
        rfl
      · rw [List.flatten_cons, hflat, List.take_append_drop]
    · refine ⟨[], ?_, ?_⟩
      · show (if 0 < (file.take n).length then
            (freadLoop n k (file.drop n)).map (fun cs => file.take n :: cs)
          else some []) = _
        rw [if_neg hc]
      · rw [List.length_take] at hc
        have h0 : file.length = 0 := by omega
        simp [List.length_eq_zero.mp h0]

theorem streamChunks_flatten (n : Nat) (hn : 0 < n) (file : List Nat) :
    (streamChunks n file).flatten = file := by
  obtain ⟨cs, hcs, hflat⟩ := freadLoop_flatten n hn (file.length + 1) file (by omega)
  simp [streamChunks, hcs, hflat]

theorem sentBytes_append (xs ys : List Event) :
    sentBytes (xs ++ ys) = sentBytes xs ++ sentBytes ys := by
  induction xs with
  | nil => rfl
  | cons e es ih => cases e <;> simp [sentBytes, ih]

theorem sentBytes_map_send (cs : List (List Nat)) :
    sentBytes (cs.map Event.send) = cs.flatten := by
  induction cs with
  | nil => rfl
  | cons c cs ih => simp [sentBytes, ih]

theorem snprintf_fits (size : Nat) (text : List Nat) (h : text.length < size) :
    snprintf size text = text := by
  unfold snprintf
  exact List.take_of_length_le (by omega)

theorem filepath_fits (name : List Nat) (h : name.length ≤ 500) :
    snprintf 512 (FILES_DIR ++ bytes "/" ++ name) = FILES_DIR ++ bytes "/" ++ name := by
  apply snprintf_fits
  have h1 : FILES_DIR.length = 10 := by decide
  have h2 : (bytes "/").length = 1 := by decide
  simp only [List.length_append, h1, h2]
  omega

/-! ## C2: the frame sent for a file that opens -/

/-- C2 (as amended): for a name of at most 233 bytes that passes the guard and
whose file `./archivos/<name>` opens with content `content`, the bytes sent by
`enviar_archivo`, joined in order, are the header naming the file, then
`content`, then the footer. -/
theorem enviar_archivo_sends_file (w : World) (name content : List Nat)
    (hguard : guardRejects name = false) (hlen : name.length ≤ 233)
    (hopen : w.fopen (FILES_DIR ++ bytes "/" ++ name) = some content) :
    sentBytes (enviar_archivo w name)
      = bytes "=== CONTENIDO DE " ++ name ++ bytes " ===\n" ++ content
          ++ bytes "\n=== FIN DEL ARCHIVO ===\n" := by
  have hpath := filepath_fits name (by omega)
  have hhead : snprintf 256 (headerText name) = headerText name := by
    apply snprintf_fits
    have h1 : (bytes "=== CONTENIDO DE ").length = 17 := by decide
    have h2 : (bytes " ===\n").length = 5 := by decide
    simp only [headerText, List.length_append, h1, h2]
    omega
  unfold enviar_archivo
  simp only [hguard, Bool.false_eq_true, if_false, hpath, hopen, hhead]
  rw [sentBytes_append, sentBytes_append, sentBytes_map_send,
    streamChunks_flatten (BUFFER_SIZE - 1) (by decide) content]
  simp [sentBytes, headerText, footer]

/-- C2, witness: `a.txt` with content `abc`. -/
theorem enviar_archivo_sends_file_witness :
    sentBytes (enviar_archivo worldA (bytes "a.txt"))
      = bytes "=== CONTENIDO DE a.txt ===\nabc\n=== FIN DEL ARCHIVO ===\n" :=
  (enviar_archivo_sends_file worldA (bytes "a.txt") (bytes "abc")
    (by decide) (by decide) (by decide)).trans (by decide)

set_option maxRecDepth 100000 in
/-- C2, counterexample: a name of 234 letters passes the guard and its file
opens, but the header is cut to the 255 bytes that fit in `header[256]`, so
the bytes sent are not header, content, footer. -/
theorem enviar_archivo_long_name_header_cut :
    guardRejects (longName 234) = false
    ∧ worldAll.fopen (FILES_DIR ++ bytes "/" ++ longName 234) = some (bytes "abc")
    ∧ sentBytes (enviar_archivo worldAll (longName 234))
        ≠ bytes "=== CONTENIDO DE " ++ longName 234 ++ bytes " ===\n" ++ bytes "abc"
            ++ bytes "\n=== FIN DEL ARCHIVO ===\n" := by
  refine ⟨by decide, rfl, ?_⟩
  intro h
  have hl := congrArg List.length h
  revert hl
  decide

/-! ## C4: the frame sent for a file that does not open -/

/-- C4 (as amended): for a name of at most 216 bytes that passes the guard and
whose file `./archivos/<name>` cannot be opened, `enviar_archivo` makes one
`send`, of the error line with the whole name between the quotes; no header
and no footer are sent. -/
theorem enviar_archivo_open_fails (w : World) (name : List Nat)
    (hguard : guardRejects name = false) (hlen : name.length ≤ 216)
    (hopen : w.fopen (FILES_DIR ++ bytes "/" ++ name) = none) :
    enviar_archivo w name
        = [Event.fopen (FILES_DIR ++ bytes "/" ++ name),
           Event.send (bytes "Error: No se puede abrir el archivo '" ++ name ++ bytes "'\n")]
    ∧ sentBytes (enviar_archivo w name)
        = bytes "Error: No se puede abrir el archivo '" ++ name ++ bytes "'\n" := by
  have hpath := filepath_fits name (by omega)
  have hmsg : snprintf 256 (openErrorText name) = openErrorText name := by
    apply snprintf_fits
    have h1 : (bytes "Error: No se puede abrir el archivo '").length = 37 := by decide
    have h2 : (bytes "'\n").length = 2 := by decide
    simp only [openErrorText, List.length_append, h1, h2]
    omega
  have h : enviar_archivo w name
        = [Event.fopen (FILES_DIR ++ bytes "/" ++ name),
           Event.send (bytes "Error: No se puede abrir el archivo '" ++ name ++ bytes "'\n")] := by
    unfold enviar_archivo
    simp only [hguard, Bool.false_eq_true, if_false, hpath, hopen, hmsg]
    rfl
  refine ⟨h, ?_⟩
  rw [h]
  simp [sentBytes]

/-- C4, witness: `nada.txt` in a world without files. -/
theorem enviar_archivo_open_fails_witness :
    sentBytes (enviar_archivo emptyWorld (bytes "nada.txt"))
      = bytes "Error: No se puede abrir el archivo 'nada.txt'\n" :=
  (enviar_archivo_open_fails emptyWorld (bytes "nada.txt")
    (by decide) (by decide) rfl).2.trans (by decide)

set_option maxRecDepth 100000 in
/-- C4, counterexample: a name of 217 letters passes the guard and does not
open; the error line is cut to the 255 bytes that fit in `error_msg[256]` and
so lacks its final newline. -/
theorem enviar_archivo_long_name_error_cut :
    guardRejects (longName 217) = false
    ∧ emptyWorld.fopen (FILES_DIR ++ bytes "/" ++ longName 217) = none
    ∧ sentBytes (enviar_archivo emptyWorld (longName 217))
        ≠ bytes "Error: No se puede abrir el archivo '" ++ longName 217 ++ bytes "'\n" := by
  refine ⟨by decide, rfl, ?_⟩
  intro h
  have hl := congrArg List.length h
  revert hl
  decide

/-! ## C3: where the client's receive loop stops -/

theorem getLoop_data (saving : Bool) (c : List Nat) (rest : List ReadResult)
    (hc : c ≠ []) :
    getLoop saving (ReadResult.data c :: rest)
      = if stopTest (cstr c) then
          ⟨cstr c, if saving then cstr c else [], 1, LoopEnd.found⟩
        else
          ⟨cstr c ++ (getLoop saving rest).displayed,
           (if saving then cstr c else []) ++ (getLoop saving rest).written,
           (getLoop saving rest).reads + 1, (getLoop saving rest).ending⟩ := by
  have h0 : (c.length == 0) = false := by
    cases c with
    | nil => exact absurd rfl hc
    | cons a t => rfl
  simp only [getLoop, h0, Bool.false_eq_true, if_false]

theorem getLoop_skips (saving : Bool) (pre : List (List Nat)) (rest : List ReadResult)
    (hpre : ∀ x ∈ pre, x ≠ [] ∧ stopTest (cstr x) = false) :
    (getLoop saving (pre.map ReadResult.data ++ rest)).reads
        = pre.length + (getLoop saving rest).reads
    ∧ (getLoop saving (pre.map ReadResult.data ++ rest)).ending
        = (getLoop saving rest).ending := by
  induction pre with
  | nil => simp
  | cons c cs ih =>
    have hc := hpre c (List.mem_cons_self c cs)
    have ih1 := ih (fun x hx => hpre x (List.mem_cons_of_mem c hx))
    rw [List.map_cons, List.cons_append, getLoop_data saving c _ hc.1]
    simp only [hc.2, Bool.false_eq_true, if_false, ih1.1, ih1.2, List.length_cons]
    constructor
    · omega
    · trivial

theorem sentinel_pieces :
    ∀ a < 23, 0 < a →
      sentinel.take a ≠ [] ∧ sentinel.drop a ≠ []
      ∧ stopTest (cstr (sentinel.take a)) = false
      ∧ stopTest (cstr (sentinel.drop a)) = false := by
  decide

/-- C3 (as amended): the receive loop stops at the first read whose own bytes,
up to the first zero byte among them, contain the sentinel or `Error:`, and
does no read after it.  A sentinel that straddles two reads of sizes `a` and
`b`, `a + b` the sentinel length, is not seen: the loop does not stop at the
second of those reads and goes on reading. -/
theorem getLoop_stops_at_first_chunk_hit (saving : Bool) (pre : List (List Nat))
    (c : List Nat) (rest : List ReadResult)
    (hpre : ∀ x ∈ pre, x ≠ [] ∧ stopTest (cstr x) = false)
    (hc : c ≠ [] ∧ stopTest (cstr c) = true) :
    ((getLoop saving (pre.map ReadResult.data ++ ReadResult.data c :: rest)).reads
        = pre.length + 1
      ∧ (getLoop saving (pre.map ReadResult.data ++ ReadResult.data c :: rest)).ending
        = LoopEnd.found)
    ∧ ∀ a b : Nat, 0 < a → 0 < b → a + b = sentinel.length →
        ∀ more : List ReadResult,
          (getLoop saving (ReadResult.data (sentinel.take a)
              :: ReadResult.data (sentinel.drop a) :: more)).reads
            = 2 + (getLoop saving more).reads
          ∧ (getLoop saving (ReadResult.data (sentinel.take a)
              :: ReadResult.data (sentinel.drop a) :: more)).ending
            = (getLoop saving more).ending := by
  constructor
  · have h := getLoop_skips saving pre (ReadResult.data c :: rest) hpre
    rw [h.1, h.2, getLoop_data saving c rest hc.1]
    simp [hc.2]
  · intro a b ha hb hab more
    have hlen : sentinel.length = 23 := by decide
    have hp := sentinel_pieces a (by omega) ha
    have h := getLoop_skips saving [sentinel.take a, sentinel.drop a] more (by
      intro x hx
      simp only [List.mem_cons, List.mem_singleton, List.not_mem_nil, or_false] at hx
      rcases hx with rfl | rfl
      · exact ⟨hp.1, hp.2.2.1⟩
      · exact ⟨hp.2.1, hp.2.2.2⟩)
    simpa using h

/-- C3, witness: the sentinel arrives whole in the second read. -/
theorem getLoop_stops_at_first_chunk_hit_witness :
    (getLoop false [ReadResult.data (bytes "abc"),
        ReadResult.data (bytes "\n=== FIN DEL ARCHIVO ===\n"),
        ReadResult.data (bytes "x")]).reads = 2 :=
  (getLoop_stops_at_first_chunk_hit false [bytes "abc"]
    (bytes "\n=== FIN DEL ARCHIVO ===\n") [ReadResult.data (bytes "x")]
    (by decide) (by decide)).1.1

/-- C3, counterexample: the sentinel split into reads of 11 and 12 bytes.
After the second read the bytes received so far contain the sentinel, yet the
loop does not stop there: it takes a third read and then asks for a fourth. -/
theorem getLoop_misses_split_sentinel :
    (bytes "=== FIN DEL").length + (bytes " ARCHIVO ===").length = sentinel.length
    ∧ strstr (bytes "=== FIN DEL" ++ bytes " ARCHIVO ===") sentinel = true
    ∧ getLoop false [ReadResult.data (bytes "=== FIN DEL"),
        ReadResult.data (bytes " ARCHIVO ==="), ReadResult.data (bytes "x")]
      = ⟨bytes "=== FIN DEL ARCHIVO ===x", [], 3, LoopEnd.pending⟩ := by
  decide

/-! ## Lemmas: the command dispatcher -/

theorem dispatch_eq (line : List Nat) :
    dispatch line
      = if line = bytes "LIST" then Action.list
        else if line.take 4 = bytes "GET " then Action.get (line.drop 4)
        else if line = bytes "EXIT" then Action.exit
        else Action.unknown := by
  have h4 : (bytes "GET ").take 4 = bytes "GET " := by decide
  simp only [dispatch, strcmp_eq, strncmp_eq, h4, beq_iff_eq]

theorem take4_iff_starts (line : List Nat) :
    line.take 4 = bytes "GET " ↔ bytes "GET " <+: line := by
  rw [List.prefix_iff_eq_take]
  have h : (bytes "GET ").length = 4 := by decide
  rw [h]
  exact eq_comm

theorem dispatch_list_iff (line : List Nat) :
    dispatch line = Action.list ↔ line = bytes "LIST" := by
  rw [dispatch_eq]
  split_ifs <;> simp_all

theorem dispatch_exit_iff (line : List Nat) :
    dispatch line = Action.exit ↔ line = bytes "EXIT" := by
  rw [dispatch_eq]
  split_ifs with h1 h2 h3
  · subst h1; simp; decide
  · simp only [false_iff]
    intro h
    subst h
    revert h2
    decide
  · simp [h3]
  · simp [h3]

theorem dispatch_get_iff (line arg : List Nat) :
    dispatch line = Action.get arg ↔ line = bytes "GET " ++ arg := by
  rw [dispatch_eq]
  split_ifs with h1 h2 h3
  · subst h1
    simp only [false_iff]
    intro h
    have := congrArg (List.take 4) h
    revert this
    rw [List.take_left' (by decide)]
    decide
  · simp only [Action.get.injEq]
    constructor
    · intro h
      rw [← h, ← h2]
      exact (List.take_append_drop 4 line).symm
    · intro h
      rw [h, List.drop_left' (by decide)]
  · simp only [false_iff]
    intro h
    apply h2
    rw [h, List.take_left' (by decide)]
  · simp only [false_iff]
    intro h
    apply h2
    rw [h, List.take_left' (by decide)]

theorem dispatch_unknown_iff (line : List Nat) :
    dispatch line = Action.unknown
      ↔ (line ≠ bytes "LIST" ∧ ¬ bytes "GET " <+: line ∧ line ≠ bytes "EXIT") := by
  rw [dispatch_eq, ← take4_iff_starts]
  split_ifs <;> simp_all

theorem cutAtNewline_line (line rest : List Nat)
    (hbytes : ∀ b ∈ line, b ≠ 0 ∧ b ≠ 10) :
    cutAtNewline (line ++ 10 :: rest) = line := by
  unfold cutAtNewline
  have hself : line.takeWhile (fun b => b != 0 && b != 10) = line := by
    rw [List.takeWhile_eq_self_iff]
    intro x hx
    have := hbytes x hx
    simp [this.1, this.2]
  rw [List.takeWhile_append, hself]
  simp [List.takeWhile]

theorem commandLine_line (line : List Nat)
    (hbytes : ∀ b ∈ line, b ≠ 0 ∧ b ≠ 10) (hlen : line.length < BUFFER_SIZE) :
    commandLine (line ++ [10]) = some line := by
  unfold commandLine
  simp only [cutAtNewline_line line [] hbytes, hlen, if_true]

theorem commandLine_bare (line : List Nat)
    (hbytes : ∀ b ∈ line, b ≠ 0 ∧ b ≠ 10) (hlen : line.length < BUFFER_SIZE) :
    commandLine line = some line := by
  have hself : cutAtNewline line = line := by
    unfold cutAtNewline
    rw [List.takeWhile_eq_self_iff]
    intro x hx
    have := hbytes x hx
    simp [this.1, this.2]
  unfold commandLine
  simp only [hself, hlen, if_true]

theorem connStep_data (w : World) (bs : List Nat) (hbs : bs ≠ []) :
    connStep w (ReadResult.data bs)
      = match commandLine bs with
        | none => none
        | some buffer => runAction w (dispatch buffer) := by
  have h0 : noData (ReadResult.data bs) = false := by
    cases bs with
    | nil => exact absurd rfl hbs
    | cons a t => rfl
  simp only [connStep, h0, Bool.false_eq_true, if_false]

theorem commandLine_defined (bs : List Nat)
    (hlen : (cutAtNewline bs).length < BUFFER_SIZE) :
    commandLine bs = some (cutAtNewline bs) := by
  unfold commandLine
  simp only [hlen, if_true]

theorem connStep_line (w : World) (bs : List Nat) (hbs : bs ≠ [])
    (hlen : (cutAtNewline bs).length < BUFFER_SIZE) :
    connStep w (ReadResult.data bs) = runAction w (dispatch (cutAtNewline bs)) := by
  rw [connStep_data w bs hbs, commandLine_defined bs hlen]

/-- C5 (as amended): the command line of a read is the bytes received before
the first newline or NUL byte (for a text line followed by its newline: the
line itself).  For every read that delivers data, with fewer than 4096 bytes
in its command line, the step takes one branch, decided by the line: it runs
`listar_archivos` when the line is `LIST`; it runs `enviar_archivo` on
everything after the first 4 bytes when the line starts with `GET `; it sends
the farewell and closes when the line is `EXIT`; otherwise it sends the
unknown-command text and nothing else.  `GET`, `get x` and `LIST ` are not
recognised. -/
theorem connStep_runs_selected_branch (w : World) (bs : List Nat) (hbs : bs ≠ [])
    (hlen : (cutAtNewline bs).length < BUFFER_SIZE) :
    (cutAtNewline bs = bytes "LIST" →
        connStep w (ReadResult.data bs)
          = (listar_archivos w).map (fun evs => (evs, ConnState.AWAIT_COMMAND)))
    ∧ (∀ arg, cutAtNewline bs = bytes "GET " ++ arg →
        connStep w (ReadResult.data bs)
          = some (enviar_archivo w arg, ConnState.AWAIT_COMMAND))
    ∧ (cutAtNewline bs = bytes "EXIT" →
        connStep w (ReadResult.data bs)
          = some ([Event.send (bytes "Cerrando conexión...\n")], ConnState.CLOSED))
    ∧ (cutAtNewline bs ≠ bytes "LIST" → ¬ bytes "GET " <+: cutAtNewline bs →
        cutAtNewline bs ≠ bytes "EXIT" →
        connStep w (ReadResult.data bs)
          = some ([Event.send
                    (bytes "Comando no reconocido. Use LIST, GET <archivo> o EXIT\n")],
                  ConnState.AWAIT_COMMAND))
    ∧ ((dispatch (cutAtNewline bs) = Action.list ↔ cutAtNewline bs = bytes "LIST")
      ∧ (∀ arg, dispatch (cutAtNewline bs) = Action.get arg
          ↔ cutAtNewline bs = bytes "GET " ++ arg)
      ∧ (dispatch (cutAtNewline bs) = Action.exit ↔ cutAtNewline bs = bytes "EXIT")
      ∧ (dispatch (cutAtNewline bs) = Action.unknown
          ↔ (cutAtNewline bs ≠ bytes "LIST" ∧ ¬ bytes "GET " <+: cutAtNewline bs
              ∧ cutAtNewline bs ≠ bytes "EXIT")))
    ∧ (connStep w (ReadResult.data (bytes "GET\n"))
          = some ([Event.send unknownMsg], ConnState.AWAIT_COMMAND)
      ∧ connStep w (ReadResult.data (bytes "get x\n"))
          = some ([Event.send unknownMsg], ConnState.AWAIT_COMMAND)
      ∧ connStep w (ReadResult.data (bytes "LIST \n"))
          = some ([Event.send unknownMsg], ConnState.AWAIT_COMMAND))
    ∧ (∀ line : List Nat, (∀ b ∈ line, b ≠ 0 ∧ b ≠ 10) →
        cutAtNewline (line ++ [10]) = line ∧ cutAtNewline line = line) := by
  have hstep := connStep_line w bs hbs hlen
  have hunk : ∀ data line : List Nat, data ≠ [] → commandLine data = some line →
      dispatch line = Action.unknown →
      connStep w (ReadResult.data data)
        = some ([Event.send unknownMsg], ConnState.AWAIT_COMMAND) := by
    intro data line hd hl hdisp
    rw [connStep_data w data hd, hl]
    simp only
    rw [hdisp]
    rfl
  refine ⟨?_, ?_, ?_, ?_,
    ⟨dispatch_list_iff _, fun arg => dispatch_get_iff _ arg, dispatch_exit_iff _,
      dispatch_unknown_iff _⟩,
    ⟨?_, ?_, ?_⟩, ?_⟩
  · intro h
    rw [hstep, (dispatch_list_iff _).2 h]
    simp only [runAction]
    cases listar_archivos w <;> rfl
  · intro arg h
    rw [hstep, (dispatch_get_iff _ arg).2 h]
    rfl
  · intro h
    rw [hstep, (dispatch_exit_iff _).2 h]
    rfl
  · intro h1 h2 h3
    rw [hstep, (dispatch_unknown_iff _).2 ⟨h1, h2, h3⟩]
    rfl
  · exact hunk (bytes "GET\n") (bytes "GET") (by decide) (by decide) (by decide)
  · exact hunk (bytes "get x\n") (bytes "get x") (by decide) (by decide) (by decide)
  · exact hunk (bytes "LIST \n") (bytes "LIST ") (by decide) (by decide) (by decide)
  · intro line hbytes
    refine ⟨cutAtNewline_line line [] hbytes, ?_⟩
    unfold cutAtNewline
    rw [List.takeWhile_eq_self_iff]
    intro x hx
    have := hbytes x hx
    simp [this.1, this.2]

/-- C5, witness: the read `GET a.txt` with its newline runs `enviar_archivo`
on `a.txt`. -/
theorem connStep_runs_selected_branch_witness :
    connStep worldA (ReadResult.data (bytes "GET a.txt\n"))
      = some (enviar_archivo worldA (bytes "a.txt"), ConnState.AWAIT_COMMAND) :=
  (connStep_runs_selected_branch worldA (bytes "GET a.txt\n")
    (by decide) (by decide)).2.1 (bytes "a.txt") (by decide)

/-- C5, counterexample: the read `LIST`, NUL, `junk`, newline.  With the
trailing newline stripped the bytes received are not `LIST`, do not start with
`GET ` and are not `EXIT`, yet the server does not send the unknown-command
text: it lists.  Likewise the read `EXIT`, newline, `LIST`, newline is taken
as `EXIT`. -/
theorem connStep_line_ends_at_first_nul_or_newline :
    (bytes "LIST" ++ 0 :: bytes "junk" ≠ bytes "LIST"
      ∧ ¬ bytes "GET " <+: bytes "LIST" ++ 0 :: bytes "junk"
      ∧ bytes "LIST" ++ 0 :: bytes "junk" ≠ bytes "EXIT")
    ∧ connStep worldA (ReadResult.data ((bytes "LIST" ++ 0 :: bytes "junk") ++ [10]))
        = some ([Event.opendir, Event.closedir,
                 Event.send (bytes ("=== LISTA DE ARCHIVOS ===\n" ++ "- a.txt (3 bytes)\n"
                   ++ "========================\n"))],
                ConnState.AWAIT_COMMAND)
    ∧ connStep worldA (ReadResult.data ((bytes "LIST" ++ 0 :: bytes "junk") ++ [10]))
        ≠ some ([Event.send
                  (bytes "Comando no reconocido. Use LIST, GET <archivo> o EXIT\n")],
                ConnState.AWAIT_COMMAND)
    ∧ (bytes "EXIT\nLIST" ≠ bytes "EXIT"
      ∧ connStep worldA (ReadResult.data (bytes "EXIT\nLIST" ++ [10]))
          = some ([Event.send (bytes "Cerrando conexión...\n")], ConnState.CLOSED)) := by
  decide

/-! ## C6: when the connection closes -/

theorem strcat_fits (size : Nat) (dst src : List Nat)
    (h : dst.length + src.length + 1 ≤ size) :
    strcat size dst src = some (dst ++ src) := by
  simp only [strcat, h, if_true]

theorem listarLoop_lines (w : World)
    (hdots : regularSize w (bytes ".") = none ∧ regularSize w (bytes "..") = none) :
    ∀ (entries : List (List Nat)) (lista : List Nat),
      (∀ d ∈ entries, d.length ≤ 255) →
      (∀ d ∈ entries, ∀ size, regularSize w d = some size →
          (fileInfoText d size).length ≤ 255) →
      (lista ++ entryLines w entries).length + 1 ≤ BUFFER_SIZE →
      listarLoop w entries lista = some (lista ++ entryLines w entries) := by
  intro entries
  induction entries with
  | nil => intro lista _ _ _; simp [listarLoop, entryLines]
  | cons d rest ih =>
    intro lista hname hline hfit
    have hname1 : ∀ x ∈ rest, x.length ≤ 255 :=
      fun x hx => hname x (List.mem_cons_of_mem d hx)
    have hline1 : ∀ x ∈ rest, ∀ size, regularSize w x = some size →
        (fileInfoText x size).length ≤ 255 :=
      fun x hx => hline x (List.mem_cons_of_mem d hx)
    have hpath := filepath_fits d (by have := hname d (List.mem_cons_self d rest); omega)
    by_cases hdot : (strcmp_eq d (bytes ".") || strcmp_eq d (bytes "..")) = true
    · have hnone : regularSize w d = none := by
        simp only [strcmp_eq, Bool.or_eq_true, beq_iff_eq] at hdot
        rcases hdot with h | h
        · rw [h]; exact hdots.1
        · rw [h]; exact hdots.2
      simp only [entryLines, hnone] at hfit ⊢
      simp only [listarLoop, hdot, if_true]
      exact ih lista hname1 hline1 hfit
    · simp only [listarLoop, hdot, Bool.false_eq_true, if_false, hpath]
      cases hs : w.stat (FILES_DIR ++ bytes "/" ++ d) with
      | none =>
        have hnone : regularSize w d = none := by
          unfold regularSize
          rw [hs]
        simp only [entryLines, hnone] at hfit ⊢
        exact ih lista hname1 hline1 hfit
      | some st =>
        by_cases hreg : st.isReg = true
        · have hsome : regularSize w d = some st.st_size := by
            unfold regularSize
            rw [hs]
            simp only [hreg, if_true]
          have hl := hline d (List.mem_cons_self d rest) st.st_size hsome
          simp only [entryLines, hsome] at hfit ⊢
          simp only [hreg, if_true, snprintf_fits 256 _ (Nat.lt_succ_of_le hl)]
          have hcat : strcat BUFFER_SIZE lista (fileInfoText d st.st_size)
              = some (lista ++ fileInfoText d st.st_size) := by
            apply strcat_fits
            simp only [List.length_append] at hfit ⊢
            omega
          simp only [hcat]
          rw [← List.append_assoc]
          apply ih _ hname1 hline1
          rw [List.append_assoc]
          exact hfit
        · have hnone : regularSize w d = none := by
            unfold regularSize
            rw [hs]
            simp only [hreg, Bool.false_eq_true, if_false]
          simp only [entryLines, hnone] at hfit ⊢
          simp only [hreg, Bool.false_eq_true, if_false]
          exact ih lista hname1 hline1 hfit

/-- C7 (as amended): when every name has at most 255 bytes, every entry line
fits in the 255 bytes of `file_info` and the whole listing fits in the 4095
bytes of `lista`, the frame sent by `listar_archivos` is the header, then one
complete line `- <name> (<size> bytes)` for each entry that is a regular file
and for no other, in enumeration order, then the footer.  For an empty root,
with or without the entries `.` and `..`, it is header followed by footer. -/
theorem listar_archivos_frame (w : World) (entries : List (List Nat))
    (hopen : w.opendir = some entries)
    (hdots : regularSize w (bytes ".") = none ∧ regularSize w (bytes "..") = none)
    (hname : ∀ d ∈ entries, d.length ≤ 255)
    (hline : ∀ d ∈ entries, ∀ size, regularSize w d = some size →
        (fileInfoText d size).length ≤ 255)
    (hfit : (listaHeader ++ entryLines w entries ++ listaFooter).length ≤ 4095) :
    listar_archivos w
        = some [Event.opendir, Event.closedir,
                Event.send (bytes "=== LISTA DE ARCHIVOS ===\n" ++ entryLines w entries
                  ++ bytes "========================\n")]
    ∧ (entries = [] ∨ entries = [bytes ".", bytes ".."] →
        listar_archivos w
          = some [Event.opendir, Event.closedir,
                  Event.send (bytes "=== LISTA DE ARCHIVOS ===\n========================\n")]) := by
  have hloop := listarLoop_lines w hdots entries listaHeader hname hline (by
    simp only [List.length_append, BUFFER_SIZE] at hfit ⊢
    omega)
  have hcat := strcat_fits BUFFER_SIZE (listaHeader ++ entryLines w entries) listaFooter (by
    simp only [List.length_append, BUFFER_SIZE] at hfit ⊢
    omega)
  have hmain : listar_archivos w
        = some [Event.opendir, Event.closedir,
                Event.send (listaHeader ++ entryLines w entries ++ listaFooter)] := by
    simp only [listar_archivos, hopen, hloop, hcat]
  refine ⟨hmain, ?_⟩
  intro he
  rw [hmain]
  rcases he with rfl | rfl
  · simp only [entryLines, List.append_nil]
    decide
  · simp only [entryLines, hdots.1, hdots.2, List.append_nil]
    decide

/-- C7, witness: a root holding `.`, `..` and the regular file `a.txt` of 3 bytes. -/
theorem listar_archivos_frame_witness :
    listar_archivos worldA
      = some [Event.opendir, Event.closedir,
              Event.send (bytes ("=== LISTA DE ARCHIVOS ===\n" ++ "- a.txt (3 bytes)\n"
                ++ "========================\n"))] :=
  (listar_archivos_frame worldA [bytes ".", bytes "..", bytes "a.txt"] rfl
    (by decide) (by decide) (by decide) (by decide)).1.trans (by decide)

set_option maxRecDepth 100000 in
/-- C7, counterexample: a root whose one regular file has a name of 250
letters.  Its line is cut to the 255 bytes that fit in `file_info[256]`, so the
frame is not header, complete line, footer. -/
theorem listar_archivos_long_name_line_cut :
    worldLong.opendir = some [longName 250]
    ∧ regularSize worldLong (longName 250) = some 0
    ∧ listar_archivos worldLong
        ≠ some [Event.opendir, Event.closedir,
                Event.send (bytes "=== LISTA DE ARCHIVOS ===\n"
                  ++ (bytes "- " ++ longName 250 ++ bytes " (0 bytes)\n")
                  ++ bytes "========================\n")] := by
  refine ⟨rfl, by decide, ?_⟩
  decide

/-! ## C8: what the client writes to the local file -/

theorem cstr_text (c : List Nat) (hz : ∀ b ∈ c, b ≠ 0) : cstr c = c := by
  unfold cstr
  rw [List.takeWhile_eq_self_iff]
  intro x hx
  simp [hz x hx]

/-- For chunks without zero bytes the file gets every chunk up to and
including the one at which the loop stops. -/
theorem getLoop_written_text (pre : List (List Nat)) (c : List Nat)
    (rest : List ReadResult)
    (hpre : ∀ x ∈ pre, x ≠ [] ∧ stopTest (cstr x) = false ∧ ∀ b ∈ x, b ≠ 0)
    (hc : c ≠ [] ∧ stopTest (cstr c) = true ∧ ∀ b ∈ c, b ≠ 0) :
    (getLoop true (pre.map ReadResult.data ++ ReadResult.data c :: rest)).written
      = (pre ++ [c]).flatten := by
  induction pre with
  | nil =>
    rw [List.map_nil, List.nil_append, getLoop_data true c rest hc.1, if_pos hc.2.1]
    simp [cstr_text c hc.2.2]
  | cons x xs ih =>
    have hx := hpre x (List.mem_cons_self x xs)
    have ih1 := ih (fun y hy => hpre y (List.mem_cons_of_mem x hy))
    rw [List.map_cons, List.cons_append, getLoop_data true x _ hx.1,
      if_neg (by simp [hx.2.1])]
    simp [ih1, cstr_text x hx.2.2]

/-- C8, the code at a failing input: the server streams a file with content
`a`, NUL, `b` and the whole frame arrives in one read.  `fprintf(file, "%s",
buffer)` stops at the NUL: the file gets the header and `a`, not the chunk
received; the sentinel after the NUL is not seen either and the loop asks for
another read. -/
theorem getLoop_zero_byte_cuts_write :
    sentBytes (enviar_archivo worldBin (bytes "a.bin"))
      = bytes "=== CONTENIDO DE a.bin ===\n" ++ [97, 0, 98] ++ footer
    ∧ getLoop true
        [ReadResult.data (bytes "=== CONTENIDO DE a.bin ===\n" ++ [97, 0, 98] ++ footer)]
      = ⟨bytes "=== CONTENIDO DE a.bin ===\na", bytes "=== CONTENIDO DE a.bin ===\na",
          1, LoopEnd.pending⟩
    ∧ (getLoop true
        [ReadResult.data (bytes "=== CONTENIDO DE a.bin ===\n" ++ [97, 0, 98] ++ footer)]).written
      ≠ bytes "=== CONTENIDO DE a.bin ===\n" ++ [97, 0, 98] ++ footer := by
  decide

/-! ## C9: bytes after the sentinel -/

/-- C9 (as amended): for every chunk in which the loop finds the sentinel, the
whole chunk up to its first zero byte, the bytes after the sentinel included,
is displayed and, when saving, written to the file; the loop then stops. -/
theorem getLoop_passes_whole_chunk (saving : Bool) (c : List Nat)
    (rest : List ReadResult) (hc : c ≠ [])
    (hfind : strstr (cstr c) sentinel = true) :
    getLoop saving (ReadResult.data c :: rest)
        = ⟨cstr c, if saving then cstr c else [], 1, LoopEnd.found⟩
    ∧ ∀ pre post : List Nat, c = pre ++ sentinel ++ post → (∀ b ∈ c, b ≠ 0) →
        (getLoop saving (ReadResult.data c :: rest)).displayed = pre ++ sentinel ++ post
        ∧ (getLoop true (ReadResult.data c :: rest)).written = pre ++ sentinel ++ post := by
  have hstop : stopTest (cstr c) = true := by simp [stopTest, hfind]
  have hall : ∀ s : Bool, getLoop s (ReadResult.data c :: rest)
        = ⟨cstr c, if s then cstr c else [], 1, LoopEnd.found⟩ := by
    intro s
    rw [getLoop_data s c rest hc]
    simp only [hstop, if_true]
  refine ⟨hall saving, ?_⟩
  intro pre post hsplit hz
  have hcstr : cstr c = c := by
    unfold cstr
    rw [List.takeWhile_eq_self_iff]
    intro x hx
    simp [hz x hx]
  rw [hall saving, hall true]
  simp only [hcstr, if_true]
  exact ⟨hsplit, hsplit⟩

/-- C9, witness: the footer as the server sends it; the newline after the
sentinel is displayed and written. -/
theorem getLoop_passes_whole_chunk_witness :
    getLoop true [ReadResult.data (bytes "abc\n=== FIN DEL ARCHIVO ===\n")]
      = ⟨bytes "abc\n=== FIN DEL ARCHIVO ===\n", bytes "abc\n=== FIN DEL ARCHIVO ===\n",
          1, LoopEnd.found⟩ :=
  (getLoop_passes_whole_chunk true (bytes "abc\n=== FIN DEL ARCHIVO ===\n") []
    (by decide) (by decide)).1.trans (by decide)

/-- C9, counterexample: a chunk with bytes after the sentinel; they are
displayed and written to the file. -/
theorem getLoop_trailing_bytes_passed :
    getLoop true [ReadResult.data (bytes "=== FIN DEL ARCHIVO ===\nEXTRA")]
      = ⟨bytes "=== FIN DEL ARCHIVO ===\nEXTRA", bytes "=== FIN DEL ARCHIVO ===\nEXTRA",
          1, LoopEnd.found⟩
    ∧ (getLoop true [ReadResult.data (bytes "=== FIN DEL ARCHIVO ===\nEXTRA")]).displayed
        ≠ bytes "=== FIN DEL ARCHIVO ==="
    ∧ (getLoop true [ReadResult.data (bytes "=== FIN DEL ARCHIVO ===\nEXTRA")]).written
        ≠ bytes "=== FIN DEL ARCHIVO ===" := by
  decide

/-! ## C10: the command the client sends -/

theorem cutAtNewline_fgetsBytes (n : Nat) :
    ∀ (cmd rest : List Nat), (∀ b ∈ cmd, b ≠ 0 ∧ b ≠ 10) →
      cutAtNewline (fgetsBytes n (cmd ++ 10 :: rest)) = cmd.take n := by
  induction n with
  | zero => intro cmd rest _; simp [fgetsBytes, cutAtNewline]
  | succ k ih =>
    intro cmd rest h
    cases cmd with
    | nil => simp [fgetsBytes, cutAtNewline]
    | cons b t =>
      have hb := h b (List.mem_cons_self b t)
      have ht : ∀ x ∈ t, x ≠ 0 ∧ x ≠ 10 := fun x hx => h x (List.mem_cons_of_mem b hx)
      have hrec := ih t rest ht
      unfold cutAtNewline at hrec ⊢
      simp only [List.cons_append, fgetsBytes, beq_iff_eq, hb.2, if_false, List.take_succ_cons]
      rw [List.takeWhile_cons]
      simp [hb.1, hb.2, hrec]

/-- C10 (as amended): for every non-empty command line the user enters (bytes
without newline or NUL, ended by the newline), the client makes one `send`, of
the command text cut to the 255 bytes that fit in `comando`, with no newline
after it. -/
theorem clientSends_command (cmd rest : List Nat) (hne : cmd ≠ [])
    (hbytes : ∀ b ∈ cmd, b ≠ 0 ∧ b ≠ 10) :
    clientSends (cmd ++ 10 :: rest) = [Event.send (cmd.take 255)]
    ∧ 10 ∉ sentBytes (clientSends (cmd ++ 10 :: rest))
    ∧ (cmd.length ≤ 255 → sentBytes (clientSends (cmd ++ 10 :: rest)) = cmd) := by
  have hsend : clientSends (cmd ++ 10 :: rest) = [Event.send (cmd.take 255)] := by
    have hin : (cmd ++ 10 :: rest).isEmpty = false := by
      cases cmd with
      | nil => exact absurd rfl hne
      | cons a t => rfl
    have hlen : ((cmd.take 255).length == 0) = false := by
      cases cmd with
      | nil => exact absurd rfl hne
      | cons a t => rfl
    simp only [clientSends, readCommand, fgets, hin, Bool.false_eq_true, if_false,
      cutAtNewline_fgetsBytes _ cmd rest hbytes, sendCommand, hlen]
  refine ⟨hsend, ?_, ?_⟩
  · rw [hsend]
    simp only [sentBytes, List.append_nil]
    intro hmem
    exact (hbytes 10 (List.mem_of_mem_take hmem)).2 rfl
  · intro hl
    rw [hsend]
    simp only [sentBytes, List.append_nil]
    exact List.take_of_length_le hl

/-- C10, witness: the user types `GET a.txt` and presses Enter. -/
theorem clientSends_command_witness :
    clientSends (bytes "GET a.txt\n") = [Event.send (bytes "GET a.txt")] :=
  (clientSends_command (bytes "GET a.txt") [] (by decide) (by decide)).1.trans (by decide)

/-- C10, counterexample: for the command `LIST` the client sends the four
bytes `LIST`; the newline is not sent. -/
theorem clientSends_no_newline :
    clientSends (bytes "LIST\n") = [Event.send (bytes "LIST")]
    ∧ sentBytes (clientSends (bytes "LIST\n")) ≠ bytes "LIST" ++ [10] := by
  decide

/-! ## C11: the chunks of the streaming loop -/

theorem freadLoop_succ (n fuel : Nat) (file : List Nat) :
    freadLoop n (fuel + 1) file
      = if 0 < (file.take n).length then
          (freadLoop n fuel (file.drop n)).map (fun cs => file.take n :: cs)
        else some [] := rfl

theorem freadLoop_fuel (n : Nat) (hn : 0 < n) :
    ∀ (f1 f2 : Nat) (file : List Nat), file.length < f1 → file.length < f2 →
      freadLoop n f1 file = freadLoop n f2 file := by
  intro f1
  induction f1 with
  | zero => intro f2 file h; omega
  | succ k ih =>
    intro f2 file h1 h2
    cases f2 with
    | zero => omega
    | succ j =>
      rw [freadLoop_succ, freadLoop_succ]
      by_cases hc : 0 < (file.take n).length
      · rw [if_pos hc, if_pos hc]
        have hd : (file.drop n).length < k ∧ (file.drop n).length < j := by
          rw [List.length_drop]
          rw [List.length_take] at hc
          omega
        rw [ih j (file.drop n) hd.1 hd.2]
      · rw [if_neg hc, if_neg hc]

theorem freadLoop_chunks (n : Nat) (hn : 0 < n) :
    ∀ (fuel : Nat) (file : List Nat), file.length < fuel →
      ∃ cs, freadLoop n fuel file = some cs
        ∧ cs.flatten = file
        ∧ (∀ c ∈ cs, c ≠ [] ∧ c.length ≤ n)
        ∧ (∀ c ∈ cs.dropLast, c.length = n) := by
  intro fuel
  induction fuel with
  | zero => intro file h; omega
  | succ k ih =>
    intro file h
    rw [freadLoop_succ]
    by_cases hc : 0 < (file.take n).length
    · have hlen := hc
      rw [List.length_take] at hlen
      have hdrop : (file.drop n).length < k := by
        rw [List.length_drop]
        omega
      obtain ⟨cs, hcs, hflat, hsize, hfull⟩ := ih (file.drop n) hdrop
      refine ⟨file.take n :: cs, ?_, ?_, ?_, ?_⟩
      · rw [if_pos hc, hcs]
        rfl
      · rw [List.flatten_cons, hflat, List.take_append_drop]
      · intro c hmem
        rcases List.mem_cons.1 hmem with rfl | hin
        · refine ⟨?_, ?_⟩
          · intro h0
            rw [h0] at hc
            exact absurd hc (by decide)
          · rw [List.length_take]
            omega
        · exact hsize c hin
      · cases cs with
        | nil => intro c hmem; simp at hmem
        | cons d ds =>
          intro c hmem
          rw [List.dropLast_cons₂] at hmem
          rcases List.mem_cons.1 hmem with rfl | hin
          · have hd : file.drop n ≠ [] := by
              intro h0
              rw [h0] at hflat
              have hdnil : d = [] := by
                have := congrArg List.length hflat
                simp only [List.flatten_cons, List.length_append, List.length_nil] at this
                exact List.length_eq_zero.1 (by omega)
              exact (hsize d (List.mem_cons_self d ds)).1 hdnil
            have hpos : 0 < (file.drop n).length := List.length_pos.2 hd
            rw [List.length_drop] at hpos
            rw [List.length_take]
            omega
          · exact hfull c hin
    · refine ⟨[], ?_, ?_, ?_, ?_⟩
      · rw [if_neg hc]
      · rw [List.length_take] at hc
        have h0 : file.length = 0 := by omega
        simp [List.length_eq_zero.mp h0]
      · intro c hmem; simp at hmem
      · intro c hmem; simp at hmem

/-- C11: for every content `C` and every chunk size `n ≥ 1` the `fread`/`send`
loop ends (any fuel above the length of `C` gives the same list of chunks);
every chunk is non-empty and has at most `n` bytes; every chunk but the last
has `n` bytes; the chunks joined in order are `C`.  So the bytes streamed are
the same for every chunk size.  The code runs the loop with
`BUFFER_SIZE - 1 = 4095`. -/
theorem streamChunks_chunking (n : Nat) (hn : 1 ≤ n) (C : List Nat) :
    (∀ fuel, C.length < fuel → freadLoop n fuel C = some (streamChunks n C))
    ∧ (∀ c ∈ streamChunks n C, c ≠ [] ∧ c.length ≤ n)
    ∧ (∀ c ∈ (streamChunks n C).dropLast, c.length = n)
    ∧ (streamChunks n C).flatten = C
    ∧ (∀ m, 1 ≤ m → (streamChunks m C).flatten = (streamChunks n C).flatten)
    ∧ (∀ w name, guardRejects name = false →
        w.fopen (snprintf 512 (FILES_DIR ++ bytes "/" ++ name)) = some C →
        enviar_archivo w name
          = [Event.fopen (snprintf 512 (FILES_DIR ++ bytes "/" ++ name)),
             Event.send (snprintf 256 (headerText name))]
            ++ (streamChunks 4095 C).map Event.send
            ++ [Event.send footer, Event.fclose]) := by
  obtain ⟨cs, hcs, hflat, hsize, hfull⟩ :=
    freadLoop_chunks n hn (C.length + 1) C (by omega)
  have hstream : streamChunks n C = cs := by
    simp only [streamChunks, hcs, Option.getD_some]
  rw [hstream]
  refine ⟨?_, hsize, hfull, hflat, ?_, ?_⟩
  · intro fuel hfuel
    rw [freadLoop_fuel n hn fuel (C.length + 1) C hfuel (by omega), hcs]
  · intro m hm
    rw [streamChunks_flatten m hm C, hflat]
  · intro w name hguard hopen
    unfold enviar_archivo
    simp only [hguard, Bool.false_eq_true, if_false, hopen]
    rfl

/-- C11, witness: five bytes streamed in chunks of two. -/
theorem streamChunks_chunking_witness :
    freadLoop 2 6 [1, 2, 3, 4, 5] = some [[1, 2], [3, 4], [5]] :=
  ((streamChunks_chunking 2 (by decide) [1, 2, 3, 4, 5]).1 6 (by decide)).trans
    (by decide)

end Reto4
